import Mathlib

/-!
# Benchmark harness of `examples_ptx/sort/sort.cpp`

A shallow embedding of the harness (`progressbar` and `main`) and theorems about it.

Conventions of the embedding.

* The C library (`rand`, `srand`, `RAND_MAX`, `atoi`) is not part of the repository; it is a
  parameter, the structure `Libc`.  ISO C fixes the state of the generator before any call of
  `srand`: it is the state `srand(1)` leaves.
* The sort kernels (`sort_ispc`, `sort_serial`) and the timer are external too; they are the
  parameter `Kernels`.  A kernel is an arbitrary function of a hidden world state and of the two
  buffers it is handed; it returns new contents for these two buffers of `n` elements.
* Buffers of `n` elements are lists of length `n` (`Buf`).  Elements are natural numbers: the
  harness never does arithmetic on an element after `rand() % l`, it only copies and compares.
* Times are rational numbers of milliseconds (the `double` arithmetic of the source read
  exactly).
* Standard output is a trace of events: one event per call of a kernel, per call of
  `progressbar`, and per `printf`.
* `assert` is taken as enabled (`NDEBUG` not defined).
-/

namespace SortBench

/-! ## The C library -/

/-- The part of the C library the harness uses. `srand s` is the generator state after
`srand(s)`; `rand g` is the value `rand()` returns in state `g` and the state it leaves. -/
structure Libc where
  Rng : Type
  srand : Nat → Rng
  rand : Rng → Nat × Rng
  RAND_MAX : Nat
  atoi : String → Int

/-- State of the generator when `main` starts: no `srand` has been called, which ISO C
(7.22.2.2) defines to be the state after `srand(1)`. -/
def Libc.initial (E : Libc) : E.Rng := E.srand 1

/-! ## `progressbar` -/

/-- The integer part of `progressbar (x, n, w)`, lines 54-60: the scaling of `x` and `n` when
`n < 100` (unsigned 32-bit arithmetic), then the early `return`.  `none` is the early return,
`some (x, n)` the scaled pair with which the bar is drawn. -/
def progressbarScaled (x n : Nat) : Option (Nat × Nat) :=
  let x1 := if n < 100 then (x * (100 / n)) % 2 ^ 32 else x
  let n1 := if n < 100 then 100 else n
  if x1 ≠ n1 ∧ x1 % (n1 / 100) ≠ 0 then none else some (x1, n1)

/-- What `progressbar (x, n, w)` draws (`w` defaults to 50 in the source), lines 63-69:
`none` when it returns early, else the percentage `(int)(ratio*100)` and the number
`c = ratio * w` of `=` cells, with the quotient `x/(float)n` read exactly.  The harness
never calls it with `n = 0`. -/
def progressbar (x n w : Nat) : Option (Nat × Nat) :=
  match progressbarScaled x n with
  | none => none
  | some (x1, n1) => some (x1 * 100 / n1, x1 * w / n1)

/-! ## Parameters of a run, line 74 -/

/-- The value of `argc` for a command line with the positional arguments `args`. -/
def argc (args : List String) : Nat := args.length + 1

/-- Workload size: `n = argc == 1 ? 1000000 : atoi(argv[1])`. -/
def paramN (E : Libc) (args : List String) : Int :=
  if argc args = 1 then 1000000 else E.atoi (args.getD 0 "")

/-- Repetition count: `m = n < 100 ? 1 : 50`. -/
def paramM (n : Int) : Int := if n < 100 then 1 else 50

/-- Value range ceiling: `l = n < 100 ? n : RAND_MAX`. -/
def paramL (E : Libc) (n : Int) : Int := if n < 100 then n else E.RAND_MAX

/-! ## Buffers -/

/-- An array of `n` elements. -/
abbrev Buf (α : Type) (n : Nat) := { l : List α // l.length = n }

/-- The bytes `memcpy (dst, src, cnt * sizeof (elem))` leaves in `dst`: the first `cnt` elements
of `src`, then the rest of `dst`. -/
def memcpyList {α : Type} (dst src : List α) (cnt : Nat) : List α :=
  src.take cnt ++ dst.drop cnt

/-- The call `ispcMemcpy (dst, src, n * sizeof (unsigned int))` on two arrays of `n` elements. -/
def ispcMemcpy {α : Type} {n : Nat} (dst src : Buf α n) : Buf α n :=
  ⟨memcpyList dst.1 src.1 n, by simp [memcpyList, dst.2, src.2]⟩

/-- The result of `std::sort` on a sequence of unsigned integers: its non-decreasing
rearrangement (which is unique, see `std_sort_unique`). -/
def std_sort (l : List Nat) : List Nat := l.insertionSort (· ≤ ·)

/-! ## The external kernels and the timer -/

/-- The sort kernels and the timer. `σ` is the state of everything outside the harness.
A kernel receives `n`, the working buffer and the order buffer (and the worker count) and
leaves new contents in both; `get_elapsed_msec` is the reading of the timer after the call.
`heapU n` and `heapI n` are the contents of freshly allocated arrays, which `new` does not
initialise. -/
structure Kernels (σ : Type) where
  sort_ispc : σ → (n : Nat) → Buf Nat n → Buf Int n → Nat → σ × Buf Nat n × Buf Int n
  sort_serial : σ → (n : Nat) → Buf Nat n → Buf Int n → σ × Buf Nat n × Buf Int n
  get_elapsed_msec : σ → ℚ
  heapU : (n : Nat) → Buf Nat n
  heapI : (n : Nat) → Buf Int n

/-- The three timed variants, in the order of the source: `sort_ispc` with one worker,
`sort_ispc` with `ntask` workers, `sort_serial`. -/
inductive Variant
  | ispc
  | tasks
  | serial
  deriving DecidableEq, Repr

/-- One observable action of the harness. -/
inductive Event
  /-- The call `sort_ispc (n, code, order, ntask)`, with the contents of `code` at the call. -/
  | sort_ispc (n : Nat) (code : List Nat) (ntask : Nat)
  /-- The call `sort_serial (n, code, order)`, with the contents of `code` at the call. -/
  | sort_serial (n : Nat) (code : List Nat)
  /-- The call `progressbar (x, n)`. -/
  | progressbar (x n : Nat)
  /-- The timing line of a variant: accumulated milliseconds and throughput. -/
  | timing (v : Variant) (t mpairs : ℚ)
  /-- The speedup line, with the quotients it prints. -/
  | speedup (qs : List ℚ)
  deriving DecidableEq

/-- How the process ends. -/
inductive Exit
  /-- The process reaches `return 0`. -/
  | ok
  /-- An array `new` with a negative element count fails. -/
  | allocFail
  /-- The `assert` of line 127 fails at index `i`. -/
  | assertFail (i : Nat)
  deriving DecidableEq, Repr

/-- What a run leaves behind: how it ended and what it did, in order. -/
structure Outcome where
  exit : Exit
  trace : List Event
  deriving DecidableEq

/-- The variables of `main` once the arrays are allocated (`n` elements each). -/
structure St (σ R : Type) (n : Nat) where
  world : σ
  rng : R
  code : Buf Nat n
  code_orig : Buf Nat n
  order : Buf Int n
  tISPC1 : ℚ
  tISPC2 : ℚ
  tSerial : ℚ
  trace : List Event

/-! ## Input generation, line 80 -/

/-- The loop `for (j = 0; j < n; j ++) code_orig[j] = rand() % l;` run for `k` elements from
generator state `g`: the elements written, in index order, and the generator state left. -/
def fill (E : Libc) (l : Int) : (k : Nat) → E.Rng → Buf Nat k × E.Rng
  | 0, g => (⟨[], rfl⟩, g)
  | k + 1, g =>
    let r := E.rand g
    let rest := fill E l k r.2
    (⟨(Int.tmod (r.1 : Int) l).toNat :: rest.1.1, by simp [rest.1.2]⟩, rest.2)

/-- The reference input `main` generates for workload size `n`: line 80 runs before any
`srand`, so the draws start from the initial generator state. -/
def genInput (E : Libc) (n : Nat) : Buf Nat n :=
  (fill E (paramL E n) n E.initial).1

/-! ## The timing loops, lines 87-99, 107-119, 131-143 -/

/-- The constant `ntask = 13*8` of line 106. -/
def ntask : Nat := 13 * 8

/-- The kernel call of a variant's loop body (lines 93, 113, 137). -/
def invoke {σ : Type} (K : Kernels σ) (v : Variant) (w : σ) (n : Nat)
    (code : Buf Nat n) (order : Buf Int n) : σ × Buf Nat n × Buf Int n :=
  match v with
  | Variant.ispc => K.sort_ispc w n code order 1
  | Variant.tasks => K.sort_ispc w n code order ntask
  | Variant.serial => K.sort_serial w n code order

/-- The event recorded for the kernel call of a variant. -/
def callEvent (v : Variant) (n : Nat) (code : List Nat) : Event :=
  match v with
  | Variant.ispc => Event.sort_ispc n code 1
  | Variant.tasks => Event.sort_ispc n code ntask
  | Variant.serial => Event.sort_serial n code

/-- The accumulator of a variant. -/
def acc {σ R : Type} {n : Nat} (v : Variant) (s : St σ R n) : ℚ :=
  match v with
  | Variant.ispc => s.tISPC1
  | Variant.tasks => s.tISPC2
  | Variant.serial => s.tSerial

/-- The statement `tV += dt` for the accumulator of variant `v`. -/
def addTime {σ R : Type} {n : Nat} (v : Variant) (dt : ℚ) (s : St σ R n) : St σ R n :=
  match v with
  | Variant.ispc => { s with tISPC1 := s.tISPC1 + dt }
  | Variant.tasks => { s with tISPC2 := s.tISPC2 + dt }
  | Variant.serial => { s with tSerial := s.tSerial + dt }

/-- The first statement of a loop body: `ispcMemcpy (code, code_orig, n*sizeof (unsigned int))`. -/
def copyIn {σ R : Type} {n : Nat} (s : St σ R n) : St σ R n :=
  { s with code := ispcMemcpy s.code s.code_orig }

/-- One pass through the body of the timing loop of variant `v`, with loop index `i`:
copy the reference input, call the kernel between the two timer calls, add the elapsed time,
and call `progressbar (i, m)` unless `argc == 3`. -/
def iteration {σ R : Type} {n : Nat} (K : Kernels σ) (argcv m : Nat) (v : Variant) (i : Nat)
    (s : St σ R n) : St σ R n :=
  let s0 := copyIn s
  let r := invoke K v s0.world n s0.code s0.order
  let s1 : St σ R n :=
    { s0 with world := r.1, code := r.2.1, order := r.2.2,
              trace := s0.trace ++ [callEvent v n s0.code.1] }
  let s2 := addTime v (K.get_elapsed_msec r.1) s1
  if argcv ≠ 3 then { s2 with trace := s2.trace ++ [Event.progressbar i m] } else s2

/-- The loop `for (i = ...; i < m; i ++) body` with `k` passes left to do, the next index
being `i`. The source's loops are `timingLoop K argc m v m 0`. -/
def timingLoop {σ R : Type} {n : Nat} (K : Kernels σ) (argcv m : Nat) (v : Variant) :
    Nat → Nat → St σ R n → St σ R n
  | 0, _, s => s
  | k + 1, i, s => timingLoop K argcv m v k (i + 1) (iteration K argcv m v i s)

/-! ## Reporting, lines 101, 121, 145-151 -/

/-- The throughput expression `1.0e-3*n*m/t` of the three timing lines. -/
def throughput (n m : Int) (t : ℚ) : ℚ := (1 / 1000 : ℚ) * n * m / t

/-- The `printf` of the timing line of variant `v`. -/
def printTiming {σ R : Type} {n : Nat} (m : Int) (v : Variant) (s : St σ R n) : St σ R n :=
  { s with trace := s.trace ++ [Event.timing v (acc v s) (throughput n m (acc v s))] }

/-- The `printf` of the speedup line: two quotients, or one in the `_CUDA_` build. -/
def printSpeedup {σ R : Type} {n : Nat} (cuda : Bool) (s : St σ R n) : St σ R n :=
  { s with trace := s.trace ++
      [Event.speedup (if cuda then [s.tSerial / s.tISPC2]
                      else [s.tSerial / s.tISPC1, s.tSerial / s.tISPC2])] }

/-! ## Validation, lines 122-127 -/

/-- The loop `for (int i = ...; i < n; i++) assert (code1[i] == code[i]);` with `k` passes
left, the next index being `i`: `some i` is the index at which the assertion fails. -/
def assertLoop (code1 code : List Nat) : Nat → Nat → Option Nat
  | 0, _ => none
  | k + 1, i =>
    if code1.getD i 0 = code.getD i 0 then assertLoop code1 code k (i + 1) else some i

/-- Lines 122-127 on a working buffer of `n` elements: copy it into the fresh array `code1`,
sort `code1`, compare elementwise. `fresh` is the content of `code1` when allocated. -/
def validate (n : Nat) (fresh code : List Nat) : Option Nat :=
  let code1 := memcpyList fresh code n
  let code1 := std_sort code1
  assertLoop code1 code n 0

/-! ## `main` -/

/-- The state of `main` when the first timing loop is reached (line 86): the arrays are
allocated, `code_orig` is filled (line 80), and `srand (0)` has been called (line 84). -/
def initSt {σ : Type} (E : Libc) (K : Kernels σ) (w0 : σ) (n : Nat) : St σ E.Rng n :=
  { world := w0, rng := E.srand 0, code := K.heapU n, code_orig := genInput E n,
    order := K.heapI n, tISPC1 := 0, tISPC2 := 0, tSerial := 0, trace := [] }

/-- Lines 86-102: the first timing loop and its timing line, compiled out by `_CUDA_`. -/
def phaseISPC {σ R : Type} {n : Nat} (K : Kernels σ) (cuda : Bool) (argcv : Nat)
    (s : St σ R n) : St σ R n :=
  if cuda then s
  else printTiming (paramM n) Variant.ispc
    (timingLoop K argcv (paramM n).toNat Variant.ispc (paramM n).toNat 0 s)

/-- Lines 104-121: `srand (0)`, the multi-worker timing loop and its timing line. -/
def phaseTasks {σ : Type} {n : Nat} (E : Libc) (K : Kernels σ) (argcv : Nat)
    (s : St σ E.Rng n) : St σ E.Rng n :=
  printTiming (paramM n) Variant.tasks
    (timingLoop K argcv (paramM n).toNat Variant.tasks (paramM n).toNat 0
      { s with rng := E.srand 0 })

/-- Lines 129-151: `srand (0)`, the scalar timing loop, its timing line, the speedup line. -/
def phaseSerial {σ : Type} {n : Nat} (E : Libc) (K : Kernels σ) (cuda : Bool) (argcv : Nat)
    (s : St σ E.Rng n) : St σ E.Rng n :=
  printSpeedup cuda (printTiming (paramM n) Variant.serial
    (timingLoop K argcv (paramM n).toNat Variant.serial (paramM n).toNat 0
      { s with rng := E.srand 0 }))

/-- The state of `main` at line 122, after the multi-worker loop and its timing line. -/
def afterTasks {σ : Type} (E : Libc) (K : Kernels σ) (w0 : σ) (cuda : Bool) (argcv n : Nat) :
    St σ E.Rng n :=
  phaseTasks E K argcv (phaseISPC K cuda argcv (initSt E K w0 n))

/-- The function `main` from the allocation of the arrays on, for a workload size `n ≥ 0`. -/
def mainN {σ : Type} (E : Libc) (K : Kernels σ) (w0 : σ) (cuda : Bool) (argcv n : Nat) :
    Outcome :=
  let s := afterTasks E K w0 cuda argcv n
  match validate n (K.heapU n).1 s.code.1 with
  | some i => ⟨Exit.assertFail i, s.trace⟩
  | none => ⟨Exit.ok, (phaseSerial E K cuda argcv s).trace⟩

/-- The function `main` on the positional arguments `args`, in the world `K`, `w0`;
`cuda` says whether `_CUDA_` is defined. A negative `n` makes the first `new` fail. -/
def main {σ : Type} (E : Libc) (K : Kernels σ) (w0 : σ) (cuda : Bool) (args : List String) :
    Outcome :=
  if paramN E args < 0 then ⟨Exit.allocFail, []⟩
  else mainN E K w0 cuda (argc args) (paramN E args).toNat

/-- The working buffer at line 122 of the run on `args`, when the run gets there. -/
def workingAfterTasks {σ : Type} (E : Libc) (K : Kernels σ) (w0 : σ) (cuda : Bool)
    (args : List String) : Option (List Nat) :=
  if paramN E args < 0 then none
  else some (afterTasks E K w0 cuda (argc args) (paramN E args).toNat).code.1

/-! ## Concrete worlds, for evaluation -/

/-- Decimal parse in the manner of `atoi`: optional sign, then digits up to the first
character that is not one. -/
def atoiDigits : List Char → Nat → Nat
  | [], a => a
  | c :: cs, a => if c.isDigit then atoiDigits cs (a * 10 + (c.toNat - 48)) else a

/-- A C library: the sample `rand`/`srand` of ISO C 7.22.2.2 (`next = next * 1103515245 +
12345; return (next/65536) % 32768`, `srand` stores the seed in `next`) on a 64-bit
`unsigned long`, with `RAND_MAX = 32767`. -/
def isoC : Libc where
  Rng := Nat
  srand := fun seed => seed
  rand := fun next =>
    let next1 := (next * 1103515245 + 12345) % 2 ^ 64
    ((next1 / 65536) % 32768, next1)
  RAND_MAX := 32767
  atoi := fun s =>
    match s.data with
    | '-' :: cs => -(atoiDigits cs 0 : Int)
    | '+' :: cs => (atoiDigits cs 0 : Int)
    | cs => (atoiDigits cs 0 : Int)

/-- Kernels that sort the working buffer, with a timer that reads 2 ms after every call. -/
def sortingKernels : Kernels Unit where
  sort_ispc := fun w _ code order _ =>
    (w, ⟨std_sort code.1, by simp [std_sort, code.2]⟩, order)
  sort_serial := fun w _ code order =>
    (w, ⟨std_sort code.1, by simp [std_sort, code.2]⟩, order)
  get_elapsed_msec := fun _ => 2
  heapU := fun n => ⟨List.replicate n 0, by simp⟩
  heapI := fun n => ⟨List.replicate n 0, by simp⟩

/-- Mocked kernels that return their input unchanged. -/
def identityKernels : Kernels Unit where
  sort_ispc := fun w _ code order _ => (w, code, order)
  sort_serial := fun w _ code order => (w, code, order)
  get_elapsed_msec := fun _ => 2
  heapU := fun n => ⟨List.replicate n 0, by simp⟩
  heapI := fun n => ⟨List.replicate n 0, by simp⟩

/-- Overwrite the first element of a list by the second one. -/
def doubleSecond : List Nat → List Nat
  | _ :: b :: r => b :: b :: r
  | l => l

/-- Mocked kernels whose vectorised sort returns a non-decreasing arrangement in which the
smallest value is omitted and the next one doubled. -/
def doublingKernels : Kernels Unit where
  sort_ispc := fun w _ code order _ =>
    (w, ⟨doubleSecond (std_sort code.1), by
      have h : ∀ l : List Nat, (doubleSecond l).length = l.length := by
        intro l
        match l with
        | [] => rfl
        | [_] => rfl
        | _ :: _ :: _ => rfl
      simp [h, std_sort, code.2]⟩, order)
  sort_serial := fun w _ code order =>
    (w, ⟨std_sort code.1, by simp [std_sort, code.2]⟩, order)
  get_elapsed_msec := fun _ => 2
  heapU := fun n => ⟨List.replicate n 0, by simp⟩
  heapI := fun n => ⟨List.replicate n 0, by simp⟩

/-! ## Auxiliary definitions for the statements -/

/-- The events of `k` passes of the timing loop of variant `v`, the next index being `i`,
when every pass hands the kernel the buffer contents `g`. -/
def loopEvents (argcv m : Nat) (v : Variant) (n : Nat) (g : List Nat) : Nat → Nat → List Event
  | 0, _ => []
  | k + 1, i =>
    callEvent v n g :: ((if argcv ≠ 3 then [Event.progressbar i m] else []) ++
      loopEvents argcv m v n g k (i + 1))

/-- Whether an event is a call of a sort kernel. -/
def Event.isCall : Event → Bool
  | Event.sort_ispc _ _ _ => true
  | Event.sort_serial _ _ => true
  | _ => false

/-- Whether an event is a call of the kernel of variant `v`. -/
def Event.isCallOf (v : Variant) : Event → Bool
  | Event.sort_ispc _ _ k =>
    (v = Variant.ispc ∧ k = 1) ∨ (v = Variant.tasks ∧ k = ntask)
  | Event.sort_serial _ _ => v = Variant.serial
  | _ => false

/-- The buffer contents a kernel call was handed, for the events that are kernel calls. -/
def Event.buffer : Event → Option (List Nat)
  | Event.sort_ispc _ c _ => some c
  | Event.sort_serial _ c => some c
  | _ => none

/-- Whether an event is a line of the report (a timing line or the speedup line). -/
def Event.isReport : Event → Bool
  | Event.timing _ _ _ => true
  | Event.speedup _ => true
  | _ => false

/-- The value the `(j+1)`-th call of `rand ()` returns, counted from generator state `g`. -/
def nthDraw (E : Libc) : Nat → E.Rng → Nat
  | 0, g => (E.rand g).1
  | j + 1, g => nthDraw E j (E.rand g).2

/-- The timing line of variant `v` for accumulated time `t` in a run of workload size `n`. -/
def timingLine (n : Nat) (v : Variant) (t : ℚ) : Event :=
  Event.timing v t (throughput n (paramM n) t)

/-- The shape of the trace up to validation: the single-worker loop and its timing line
(unless `_CUDA_`), the multi-worker loop and its timing line; `g` is the buffer handed to the
kernels, `t1` and `t2` the accumulated times. -/
def preTrace (cuda : Bool) (argcv n : Nat) (g : List Nat) (t1 t2 : ℚ) : List Event :=
  (if cuda then []
   else loopEvents argcv (paramM n).toNat Variant.ispc n g (paramM n).toNat 0 ++
     [timingLine n Variant.ispc t1]) ++
  (loopEvents argcv (paramM n).toNat Variant.tasks n g (paramM n).toNat 0 ++
     [timingLine n Variant.tasks t2])

/-- The shape of the trace after validation: the scalar loop, its timing line, the speedup
line. -/
def postTrace (argcv n : Nat) (g : List Nat) (t3 : ℚ) (qs : List ℚ) : List Event :=
  loopEvents argcv (paramM n).toNat Variant.serial n g (paramM n).toNat 0 ++
    [timingLine n Variant.serial t3, Event.speedup qs]

/-- Every timing line of the trace `L` comes after exactly `M` kernel calls of its variant,
`c v` being the number of calls of variant `v` made before `L` starts. -/
def TimedAfter (M : Nat) (c : Variant → Nat) (L : List Event) : Prop :=
  ∀ pre post v t q, L = pre ++ Event.timing v t q :: post →
    c v + (pre.filter (Event.isCallOf v)).length = M

/-- The state with which the timing loop of variant `v` is entered. -/
def loopStart {σ : Type} (E : Libc) (K : Kernels σ) (w0 : σ) (cuda : Bool) (argcv n : Nat)
    (v : Variant) : St σ E.Rng n :=
  match v with
  | Variant.ispc => initSt E K w0 n
  | Variant.tasks => { phaseISPC K cuda argcv (initSt E K w0 n) with rng := E.srand 0 }
  | Variant.serial => { afterTasks E K w0 cuda argcv n with rng := E.srand 0 }

/-- The state at the top of pass `i` of the timing loop of variant `v` (at the exit of the
loop when `i` is the repetition count). -/
def atTop {σ : Type} (E : Libc) (K : Kernels σ) (w0 : σ) (cuda : Bool) (argcv n : Nat)
    (v : Variant) (i : Nat) : St σ E.Rng n :=
  timingLoop K argcv (paramM n).toNat v i 0 (loopStart E K w0 cuda argcv n v)

/-! ## Lemmas: buffers and the reference sort -/

theorem memcpyList_full {α : Type} (dst src : List α) (n : Nat) (hd : dst.length = n)
    (hs : src.length = n) : memcpyList dst src n = src := by
  subst hs
  simp [memcpyList, hd]

theorem ispcMemcpy_eq {α : Type} {n : Nat} (dst src : Buf α n) : ispcMemcpy dst src = src :=
  Subtype.ext (memcpyList_full dst.1 src.1 n dst.2 src.2)

theorem std_sort_sorted (l : List Nat) : (std_sort l).Sorted (· ≤ ·) :=
  List.sorted_insertionSort (· ≤ ·) l

theorem std_sort_perm (l : List Nat) : (std_sort l).Perm l :=
  List.perm_insertionSort (· ≤ ·) l

theorem std_sort_length (l : List Nat) : (std_sort l).length = l.length :=
  (std_sort_perm l).length_eq

/-- Any correct sort computes `std_sort`: a non-decreasing rearrangement is unique. -/
theorem std_sort_unique (l r : List Nat) (hs : r.Sorted (· ≤ ·)) (hp : r.Perm l) :
    r = std_sort l :=
  List.eq_of_perm_of_sorted (hp.trans (std_sort_perm l).symm) hs (std_sort_sorted l)

theorem std_sort_eq_self_iff (l : List Nat) : std_sort l = l ↔ l.Sorted (· ≤ ·) := by
  constructor
  · intro h
    rw [← h]
    exact std_sort_sorted l
  · intro h
    exact List.Sorted.insertionSort_eq h

/-! ## Lemmas: validation -/

theorem assertLoop_none (code1 code : List Nat) (k i : Nat) :
    assertLoop code1 code k i = none ↔
      ∀ j, i ≤ j → j < i + k → code1.getD j 0 = code.getD j 0 := by
  induction k generalizing i with
  | zero =>
    simp only [assertLoop, true_iff]
    intro j h1 h2
    omega
  | succ k ih =>
    simp only [assertLoop]
    by_cases h : code1.getD i 0 = code.getD i 0
    · rw [if_pos h, ih]
      constructor
      · intro H j h1 h2
        rcases Nat.eq_or_lt_of_le h1 with e | l
        · subst e
          exact h
        · exact H j l (by omega)
      · intro H j h1 h2
        exact H j (by omega) (by omega)
    · rw [if_neg h]
      constructor
      · intro H
        cases H
      · intro H
        exact absurd (H i (le_refl i) (by omega)) h

theorem assertLoop_some (code1 code : List Nat) (k i r : Nat)
    (h : assertLoop code1 code k i = some r) :
    i ≤ r ∧ r < i + k ∧ code1.getD r 0 ≠ code.getD r 0 ∧
      ∀ j, i ≤ j → j < r → code1.getD j 0 = code.getD j 0 := by
  induction k generalizing i with
  | zero => simp [assertLoop] at h
  | succ k ih =>
    simp only [assertLoop] at h
    by_cases e : code1.getD i 0 = code.getD i 0
    · rw [if_pos e] at h
      obtain ⟨h1, h2, h3, h4⟩ := ih (i + 1) h
      refine ⟨by omega, by omega, h3, ?_⟩
      intro j hj1 hj2
      rcases Nat.eq_or_lt_of_le hj1 with e1 | l
      · subst e1
        exact e
      · exact h4 j l hj2
    · rw [if_neg e] at h
      cases h
      exact ⟨le_refl _, by omega, e, fun j h1 h2 => absurd h2 (by omega)⟩

theorem getD_ext (a b : List Nat) (hl : a.length = b.length)
    (h : ∀ j, j < a.length → a.getD j 0 = b.getD j 0) : a = b := by
  apply List.ext_getElem hl
  intro j h1 h2
  have := h j h1
  rwa [List.getD_eq_getElem a 0 h1, List.getD_eq_getElem b 0 h2] at this

theorem validate_eq (n : Nat) (fresh code : Buf Nat n) :
    validate n fresh.1 code.1 = assertLoop (std_sort code.1) code.1 n 0 := by
  simp only [validate, memcpyList_full fresh.1 code.1 n fresh.2 code.2]

theorem validate_none_iff (n : Nat) (fresh code : Buf Nat n) :
    validate n fresh.1 code.1 = none ↔ code.1.Sorted (· ≤ ·) := by
  rw [validate_eq, assertLoop_none, ← std_sort_eq_self_iff]
  constructor
  · intro H
    apply getD_ext _ _ (std_sort_length _)
    intro j hj
    rw [std_sort_length, code.2] at hj
    exact H j (Nat.zero_le j) (by omega)
  · intro H j _ _
    rw [H]

theorem validate_some (n : Nat) (fresh code : Buf Nat n) (i : Nat)
    (h : validate n fresh.1 code.1 = some i) :
    i < n ∧ (std_sort code.1).getD i 0 ≠ code.1.getD i 0 ∧
      ∀ j, j < i → (std_sort code.1).getD j 0 = code.1.getD j 0 := by
  rw [validate_eq] at h
  obtain ⟨_, h2, h3, h4⟩ := assertLoop_some _ _ _ _ _ h
  exact ⟨by omega, h3, fun j hj => h4 j (Nat.zero_le j) hj⟩

/-! ## Lemmas: the timing loops -/

section Loops

variable {σ R : Type} {n : Nat}

theorem addTime_trace (v : Variant) (dt : ℚ) (s : St σ R n) :
    (addTime v dt s).trace = s.trace := by
  cases v <;> rfl

theorem addTime_code_orig (v : Variant) (dt : ℚ) (s : St σ R n) :
    (addTime v dt s).code_orig = s.code_orig := by
  cases v <;> rfl

theorem copyIn_code (s : St σ R n) : (copyIn s).code = s.code_orig :=
  ispcMemcpy_eq s.code s.code_orig

theorem iteration_code_orig (K : Kernels σ) (argcv m : Nat) (v : Variant) (i : Nat)
    (s : St σ R n) : (iteration K argcv m v i s).code_orig = s.code_orig := by
  unfold iteration
  by_cases h : argcv ≠ 3
  · rw [if_pos h]
    simp only [addTime_code_orig, copyIn]
  · rw [if_neg h]
    simp only [addTime_code_orig, copyIn]

theorem iteration_trace (K : Kernels σ) (argcv m : Nat) (v : Variant) (i : Nat)
    (s : St σ R n) :
    (iteration K argcv m v i s).trace =
      s.trace ++ callEvent v n s.code_orig.1 ::
        (if argcv ≠ 3 then [Event.progressbar i m] else []) := by
  unfold iteration
  by_cases h : argcv ≠ 3
  · rw [if_pos h, if_pos h]
    simp only [addTime_trace, copyIn, ispcMemcpy_eq, List.append_assoc, List.singleton_append]
  · rw [if_neg h, if_neg h]
    simp only [addTime_trace, copyIn, ispcMemcpy_eq]

theorem timingLoop_code_orig (K : Kernels σ) (argcv m : Nat) (v : Variant) (k i : Nat)
    (s : St σ R n) : (timingLoop K argcv m v k i s).code_orig = s.code_orig := by
  induction k generalizing i s with
  | zero => rfl
  | succ k ih => rw [timingLoop, ih, iteration_code_orig]

theorem timingLoop_trace (K : Kernels σ) (argcv m : Nat) (v : Variant) (k i : Nat)
    (s : St σ R n) :
    (timingLoop K argcv m v k i s).trace =
      s.trace ++ loopEvents argcv m v n s.code_orig.1 k i := by
  induction k generalizing i s with
  | zero => simp [timingLoop, loopEvents]
  | succ k ih =>
    rw [timingLoop, ih, iteration_code_orig, iteration_trace]
    simp [loopEvents]

/-- After `i + 1` passes the state is the body applied to the state after `i` passes. -/
theorem timingLoop_succ (K : Kernels σ) (argcv m : Nat) (v : Variant) (k i : Nat)
    (s : St σ R n) :
    timingLoop K argcv m v (k + 1) i s =
      iteration K argcv m v (i + k) (timingLoop K argcv m v k i s) := by
  induction k generalizing i s with
  | zero => rfl
  | succ k ih =>
    rw [timingLoop, ih (i + 1), timingLoop]
    congr 1
    omega

theorem printTiming_code_orig (m : Int) (v : Variant) (s : St σ R n) :
    (printTiming m v s).code_orig = s.code_orig := rfl

theorem printSpeedup_code_orig (cuda : Bool) (s : St σ R n) :
    (printSpeedup cuda s).code_orig = s.code_orig := rfl

end Loops

/-! ## Lemmas: the events of a loop -/

theorem loopEvents_succ_pos (argcv m : Nat) (v : Variant) (n : Nat) (g : List Nat) (k i : Nat)
    (h : argcv ≠ 3) :
    loopEvents argcv m v n g (k + 1) i =
      callEvent v n g :: Event.progressbar i m :: loopEvents argcv m v n g k (i + 1) := by
  rw [loopEvents, if_pos h]
  rfl

theorem loopEvents_succ_neg (argcv m : Nat) (v : Variant) (n : Nat) (g : List Nat) (k i : Nat)
    (h : ¬ argcv ≠ 3) :
    loopEvents argcv m v n g (k + 1) i =
      callEvent v n g :: loopEvents argcv m v n g k (i + 1) := by
  rw [loopEvents, if_neg h]
  rfl

theorem callEvent_isCall (v : Variant) (n : Nat) (g : List Nat) :
    (callEvent v n g).isCall = true := by
  cases v <;> rfl

theorem callEvent_isCallOf (v v1 : Variant) (n : Nat) (g : List Nat) :
    (callEvent v1 n g).isCallOf v = decide (v = v1) := by
  cases v <;> cases v1 <;> simp [callEvent, Event.isCallOf, ntask]

theorem callEvent_isReport (v : Variant) (n : Nat) (g : List Nat) :
    (callEvent v n g).isReport = false := by
  cases v <;> rfl

theorem callEvent_buffer (v : Variant) (n : Nat) (g : List Nat) :
    (callEvent v n g).buffer = some g := by
  cases v <;> rfl

theorem callEvent_ne_progressbar (v : Variant) (n : Nat) (g : List Nat) (x y : Nat) :
    Event.progressbar x y ≠ callEvent v n g := by
  cases v <;> simp [callEvent]

theorem loopEvents_isCall (argcv m : Nat) (v : Variant) (n : Nat) (g : List Nat) (k i : Nat) :
    (loopEvents argcv m v n g k i).filter Event.isCall = List.replicate k (callEvent v n g) := by
  induction k generalizing i with
  | zero => rfl
  | succ k ih =>
    by_cases h : argcv ≠ 3
    · rw [loopEvents_succ_pos _ _ _ _ _ _ _ h, List.filter_cons_of_pos (callEvent_isCall v n g),
        List.filter_cons_of_neg (by simp [Event.isCall]), ih, List.replicate_succ]
    · rw [loopEvents_succ_neg _ _ _ _ _ _ _ h, List.filter_cons_of_pos (callEvent_isCall v n g),
        ih, List.replicate_succ]

theorem loopEvents_isCallOf (argcv m : Nat) (v v1 : Variant) (n : Nat) (g : List Nat)
    (k i : Nat) :
    ((loopEvents argcv m v1 n g k i).filter (Event.isCallOf v)).length =
      if v = v1 then k else 0 := by
  induction k generalizing i with
  | zero => simp [loopEvents]
  | succ k ih =>
    have hp : ∀ x y, (Event.progressbar x y).isCallOf v = false := fun _ _ => rfl
    by_cases h : argcv ≠ 3
    · rw [loopEvents_succ_pos _ _ _ _ _ _ _ h]
      by_cases e : v = v1
      · rw [List.filter_cons_of_pos (by rw [callEvent_isCallOf]; exact decide_eq_true e),
          List.filter_cons_of_neg (by simp [hp]), List.length_cons, ih, if_pos e, if_pos e]
      · rw [List.filter_cons_of_neg (by rw [callEvent_isCallOf]; simp [e]),
          List.filter_cons_of_neg (by simp [hp]), ih, if_neg e, if_neg e]
    · rw [loopEvents_succ_neg _ _ _ _ _ _ _ h]
      by_cases e : v = v1
      · rw [List.filter_cons_of_pos (by rw [callEvent_isCallOf]; exact decide_eq_true e),
          List.length_cons, ih, if_pos e, if_pos e]
      · rw [List.filter_cons_of_neg (by rw [callEvent_isCallOf]; simp [e]), ih, if_neg e,
          if_neg e]

theorem loopEvents_isReport (argcv m : Nat) (v : Variant) (n : Nat) (g : List Nat) (k i : Nat) :
    ∀ e ∈ loopEvents argcv m v n g k i, e.isReport = false := by
  induction k generalizing i with
  | zero => simp [loopEvents]
  | succ k ih =>
    intro e he
    by_cases h : argcv ≠ 3
    · rw [loopEvents_succ_pos _ _ _ _ _ _ _ h] at he
      rcases List.mem_cons.1 he with rfl | he
      · exact callEvent_isReport v n g
      · rcases List.mem_cons.1 he with rfl | he
        · rfl
        · exact ih _ e he
    · rw [loopEvents_succ_neg _ _ _ _ _ _ _ h] at he
      rcases List.mem_cons.1 he with rfl | he
      · exact callEvent_isReport v n g
      · exact ih _ e he

theorem loopEvents_buffer (argcv m : Nat) (v : Variant) (n : Nat) (g : List Nat) (k i : Nat) :
    ∀ e ∈ loopEvents argcv m v n g k i, ∀ c, e.buffer = some c → c = g := by
  induction k generalizing i with
  | zero => simp [loopEvents]
  | succ k ih =>
    intro e he c hc
    by_cases h : argcv ≠ 3
    · rw [loopEvents_succ_pos _ _ _ _ _ _ _ h] at he
      rcases List.mem_cons.1 he with rfl | he
      · rw [callEvent_buffer] at hc
        exact (Option.some.inj hc).symm
      · rcases List.mem_cons.1 he with rfl | he
        · cases hc
        · exact ih _ e he c hc
    · rw [loopEvents_succ_neg _ _ _ _ _ _ _ h] at he
      rcases List.mem_cons.1 he with rfl | he
      · rw [callEvent_buffer] at hc
        exact (Option.some.inj hc).symm
      · exact ih _ e he c hc

theorem loopEvents_progressbar (m : Nat) (v : Variant) (n : Nat) (g : List Nat) (k i : Nat) :
    ∀ x y, Event.progressbar x y ∉ loopEvents 3 m v n g k i := by
  induction k generalizing i with
  | zero => simp [loopEvents]
  | succ k ih =>
    intro x y hm
    rw [loopEvents_succ_neg _ _ _ _ _ _ _ (by decide)] at hm
    rcases List.mem_cons.1 hm with e | hm
    · exact callEvent_ne_progressbar v n g x y e
    · exact ih _ x y hm

/-! ## Lemmas: the shape of a run -/

section Shape

variable {σ : Type}

theorem initSt_code_orig (E : Libc) (K : Kernels σ) (w0 : σ) (n : Nat) :
    (initSt E K w0 n).code_orig = genInput E n := rfl

theorem phaseISPC_code_orig {R : Type} {n : Nat} (K : Kernels σ) (cuda : Bool) (argcv : Nat)
    (s : St σ R n) : (phaseISPC K cuda argcv s).code_orig = s.code_orig := by
  unfold phaseISPC
  cases cuda
  · simp only [Bool.false_eq_true, if_false, printTiming_code_orig, timingLoop_code_orig]
  · simp only [if_true]

theorem phaseTasks_code_orig {n : Nat} (E : Libc) (K : Kernels σ) (argcv : Nat)
    (s : St σ E.Rng n) : (phaseTasks E K argcv s).code_orig = s.code_orig := by
  unfold phaseTasks
  rw [printTiming_code_orig, timingLoop_code_orig]

theorem phaseSerial_code_orig {n : Nat} (E : Libc) (K : Kernels σ) (cuda : Bool) (argcv : Nat)
    (s : St σ E.Rng n) : (phaseSerial E K cuda argcv s).code_orig = s.code_orig := by
  unfold phaseSerial
  rw [printSpeedup_code_orig, printTiming_code_orig, timingLoop_code_orig]

theorem afterTasks_code_orig (E : Libc) (K : Kernels σ) (w0 : σ) (cuda : Bool) (argcv n : Nat) :
    (afterTasks E K w0 cuda argcv n).code_orig = genInput E n := by
  unfold afterTasks
  rw [phaseTasks_code_orig, phaseISPC_code_orig, initSt_code_orig]

theorem phaseISPC_trace {R : Type} {n : Nat} (K : Kernels σ) (cuda : Bool) (argcv : Nat)
    (s : St σ R n) :
    ∃ t1, (phaseISPC K cuda argcv s).trace = s.trace ++
      (if cuda then []
       else loopEvents argcv (paramM n).toNat Variant.ispc n s.code_orig.1 (paramM n).toNat 0 ++
         [timingLine n Variant.ispc t1]) := by
  unfold phaseISPC
  cases cuda
  · refine ⟨acc Variant.ispc
      (timingLoop K argcv (paramM n).toNat Variant.ispc (paramM n).toNat 0 s), ?_⟩
    simp only [Bool.false_eq_true, if_false, printTiming, timingLoop_trace, timingLine,
      List.append_assoc]
  · exact ⟨0, by simp⟩

theorem phaseTasks_trace {n : Nat} (E : Libc) (K : Kernels σ) (argcv : Nat)
    (s : St σ E.Rng n) :
    ∃ t2, (phaseTasks E K argcv s).trace = s.trace ++
      (loopEvents argcv (paramM n).toNat Variant.tasks n s.code_orig.1 (paramM n).toNat 0 ++
         [timingLine n Variant.tasks t2]) := by
  unfold phaseTasks
  refine ⟨acc Variant.tasks (timingLoop K argcv (paramM n).toNat Variant.tasks
    (paramM n).toNat 0 { s with rng := E.srand 0 }), ?_⟩
  simp only [printTiming, timingLoop_trace, timingLine, List.append_assoc]

theorem phaseSerial_trace {n : Nat} (E : Libc) (K : Kernels σ) (cuda : Bool) (argcv : Nat)
    (s : St σ E.Rng n) :
    ∃ t3 qs, (phaseSerial E K cuda argcv s).trace =
      s.trace ++ postTrace argcv n s.code_orig.1 t3 qs := by
  unfold phaseSerial
  generalize hs : timingLoop K argcv (paramM n).toNat Variant.serial (paramM n).toNat 0
    { s with rng := E.srand 0 } = s3
  have ht : s3.trace = s.trace ++
      loopEvents argcv (paramM n).toNat Variant.serial n s.code_orig.1 (paramM n).toNat 0 := by
    rw [← hs, timingLoop_trace]
  refine ⟨acc Variant.serial s3, if cuda then [s3.tSerial / s3.tISPC2]
    else [s3.tSerial / s3.tISPC1, s3.tSerial / s3.tISPC2], ?_⟩
  simp only [printSpeedup, printTiming, ht, timingLine, postTrace, List.append_assoc,
    List.singleton_append]

theorem afterTasks_trace (E : Libc) (K : Kernels σ) (w0 : σ) (cuda : Bool) (argcv n : Nat) :
    ∃ t1 t2, (afterTasks E K w0 cuda argcv n).trace =
      preTrace cuda argcv n (genInput E n).1 t1 t2 := by
  obtain ⟨t1, h1⟩ := phaseISPC_trace K cuda argcv (initSt E K w0 n)
  obtain ⟨t2, h2⟩ := phaseTasks_trace E K argcv (phaseISPC K cuda argcv (initSt E K w0 n))
  refine ⟨t1, t2, ?_⟩
  unfold afterTasks preTrace
  rw [h2, h1, phaseISPC_code_orig, initSt_code_orig]
  rfl

/-- The two ways a run with allocated arrays ends. -/
theorem mainN_cases (E : Libc) (K : Kernels σ) (w0 : σ) (cuda : Bool) (argcv n : Nat) :
    ∃ t1 t2,
      (∃ i, validate n (K.heapU n).1 (afterTasks E K w0 cuda argcv n).code.1 = some i ∧
        mainN E K w0 cuda argcv n =
          ⟨Exit.assertFail i, preTrace cuda argcv n (genInput E n).1 t1 t2⟩) ∨
      (∃ t3 qs, validate n (K.heapU n).1 (afterTasks E K w0 cuda argcv n).code.1 = none ∧
        mainN E K w0 cuda argcv n =
          ⟨Exit.ok, preTrace cuda argcv n (genInput E n).1 t1 t2 ++
            postTrace argcv n (genInput E n).1 t3 qs⟩) := by
  obtain ⟨t1, t2, h⟩ := afterTasks_trace E K w0 cuda argcv n
  refine ⟨t1, t2, ?_⟩
  cases hv : validate n (K.heapU n).1 (afterTasks E K w0 cuda argcv n).code.1 with
  | some i =>
    left
    refine ⟨i, rfl, ?_⟩
    simp only [mainN, hv, h]
  | none =>
    right
    obtain ⟨t3, qs, h3⟩ := phaseSerial_trace E K cuda argcv (afterTasks E K w0 cuda argcv n)
    refine ⟨t3, qs, rfl, ?_⟩
    simp only [mainN, hv, h3, h, afterTasks_code_orig]

theorem main_cases (E : Libc) (K : Kernels σ) (w0 : σ) (cuda : Bool) (args : List String) :
    (paramN E args < 0 ∧ main E K w0 cuda args = ⟨Exit.allocFail, []⟩) ∨
    (0 ≤ paramN E args ∧
      main E K w0 cuda args = mainN E K w0 cuda (argc args) (paramN E args).toNat) := by
  unfold main
  by_cases h : paramN E args < 0
  · left
    exact ⟨h, by rw [if_pos h]⟩
  · right
    exact ⟨not_lt.1 h, by rw [if_neg h]⟩

/-- How a run ends is decided by the validator alone, on the working buffer of line 122. -/
theorem main_exit (E : Libc) (K : Kernels σ) (w0 : σ) (cuda : Bool) (args : List String)
    (c : List Nat) (hc : workingAfterTasks E K w0 cuda args = some c) :
    c.length = (paramN E args).toNat ∧
    (main E K w0 cuda args).exit =
      match validate (paramN E args).toNat (K.heapU (paramN E args).toNat).1 c with
      | some i => Exit.assertFail i
      | none => Exit.ok := by
  unfold workingAfterTasks at hc
  by_cases h : paramN E args < 0
  · rw [if_pos h] at hc
    cases hc
  · rw [if_neg h] at hc
    cases hc
    refine ⟨(afterTasks E K w0 cuda (argc args) (paramN E args).toNat).code.2, ?_⟩
    unfold main
    rw [if_neg h]
    cases hv : validate (paramN E args).toNat (K.heapU (paramN E args).toNat).1
      (afterTasks E K w0 cuda (argc args) (paramN E args).toNat).code.1 <;>
      simp only [mainN, hv]

end Shape

/-! ## Lemmas: what the trace of a run contains -/

theorem toNat_cast_of_not_neg (z : Int) (h : ¬ z < 0) : ((z.toNat : Nat) : Int) = z :=
  Int.toNat_of_nonneg (not_lt.1 h)

theorem mem_preTrace (cuda : Bool) (argcv n : Nat) (g : List Nat) (t1 t2 : ℚ) (e : Event)
    (he : e ∈ preTrace cuda argcv n g t1 t2) :
    (∃ v, e ∈ loopEvents argcv (paramM n).toNat v n g (paramM n).toNat 0) ∨
      (cuda = false ∧ e = timingLine n Variant.ispc t1) ∨ e = timingLine n Variant.tasks t2 := by
  unfold preTrace at he
  rcases List.mem_append.1 he with h | h
  · cases cuda
    · rw [if_neg (by decide)] at h
      rcases List.mem_append.1 h with h | h
      · exact Or.inl ⟨_, h⟩
      · exact Or.inr (Or.inl ⟨rfl, List.mem_singleton.1 h⟩)
    · rw [if_pos rfl] at h
      cases h
  · rcases List.mem_append.1 h with h | h
    · exact Or.inl ⟨_, h⟩
    · exact Or.inr (Or.inr (List.mem_singleton.1 h))

theorem mem_postTrace (argcv n : Nat) (g : List Nat) (t3 : ℚ) (qs : List ℚ) (e : Event)
    (he : e ∈ postTrace argcv n g t3 qs) :
    (∃ v, e ∈ loopEvents argcv (paramM n).toNat v n g (paramM n).toNat 0) ∨
      e = timingLine n Variant.serial t3 ∨ e = Event.speedup qs := by
  unfold postTrace at he
  rcases List.mem_append.1 he with h | h
  · exact Or.inl ⟨_, h⟩
  · rcases List.mem_cons.1 h with h | h
    · exact Or.inr (Or.inl h)
    · exact Or.inr (Or.inr (List.mem_singleton.1 h))

/-- Every event of a run is an event of one of the timing loops, a timing line of the
run's workload size, or the speedup line. -/
theorem mem_main_trace {σ : Type} (E : Libc) (K : Kernels σ) (w0 : σ) (cuda : Bool)
    (args : List String) (e : Event) (he : e ∈ (main E K w0 cuda args).trace) :
    ¬ paramN E args < 0 ∧
    ((∃ v, e ∈ loopEvents (argc args) (paramM (paramN E args)).toNat v (paramN E args).toNat
        (genInput E (paramN E args).toNat).1 (paramM (paramN E args)).toNat 0) ∨
      (∃ v t, e = Event.timing v t (throughput (paramN E args) (paramM (paramN E args)) t)) ∨
      ∃ qs, e = Event.speedup qs) := by
  rcases main_cases E K w0 cuda args with ⟨_, hm⟩ | ⟨hn, hm⟩
  · rw [hm] at he
    cases he
  · have hneg : ¬ paramN E args < 0 := not_lt.2 hn
    have hcast := toNat_cast_of_not_neg _ hneg
    refine ⟨hneg, ?_⟩
    have key : ∀ t1 t2 t3 qs, (e ∈ preTrace cuda (argc args) (paramN E args).toNat
          (genInput E (paramN E args).toNat).1 t1 t2 ∨
        e ∈ postTrace (argc args) (paramN E args).toNat
          (genInput E (paramN E args).toNat).1 t3 qs) →
        ((∃ v, e ∈ loopEvents (argc args) (paramM (paramN E args)).toNat v
            (paramN E args).toNat (genInput E (paramN E args).toNat).1
            (paramM (paramN E args)).toNat 0) ∨
          (∃ v t, e = Event.timing v t
            (throughput (paramN E args) (paramM (paramN E args)) t)) ∨
          ∃ qs, e = Event.speedup qs) := by
      intro t1 t2 t3 qs h
      rcases h with h | h
      · rcases mem_preTrace _ _ _ _ _ _ _ h with ⟨v, h⟩ | ⟨_, h⟩ | h
        · rw [hcast] at h
          exact Or.inl ⟨v, h⟩
        · rw [h, timingLine, hcast]
          exact Or.inr (Or.inl ⟨_, _, rfl⟩)
        · rw [h, timingLine, hcast]
          exact Or.inr (Or.inl ⟨_, _, rfl⟩)
      · rcases mem_postTrace _ _ _ _ _ _ h with ⟨v, h⟩ | h | h
        · rw [hcast] at h
          exact Or.inl ⟨v, h⟩
        · rw [h, timingLine, hcast]
          exact Or.inr (Or.inl ⟨_, _, rfl⟩)
        · exact Or.inr (Or.inr ⟨_, h⟩)
    obtain ⟨t1, t2, ⟨i, _, hN⟩ | ⟨t3, qs, _, hN⟩⟩ :=
      mainN_cases E K w0 cuda (argc args) (paramN E args).toNat
    · rw [hm, hN] at he
      exact key t1 t2 0 [] (Or.inl he)
    · rw [hm, hN] at he
      exact key t1 t2 t3 qs (List.mem_append.1 he)

theorem loopEvents_progressbar_index (argcv m : Nat) (v : Variant) (n : Nat) (g : List Nat)
    (k i x y : Nat) (h : Event.progressbar x y ∈ loopEvents argcv m v n g k i) :
    y = m ∧ i ≤ x ∧ x < i + k := by
  induction k generalizing i with
  | zero => simp [loopEvents] at h
  | succ k ih =>
    have tail : Event.progressbar x y ∈ loopEvents argcv m v n g k (i + 1) →
        y = m ∧ i ≤ x ∧ x < i + (k + 1) := by
      intro h'
      obtain ⟨h1, h2, h3⟩ := ih (i + 1) h'
      exact ⟨h1, by omega, by omega⟩
    by_cases ha : argcv ≠ 3
    · rw [loopEvents_succ_pos _ _ _ _ _ _ _ ha] at h
      rcases List.mem_cons.1 h with e | h
      · exact absurd e (callEvent_ne_progressbar v n g x y)
      · rcases List.mem_cons.1 h with e | h
        · injection e with e1 e2
          exact ⟨e2, by omega, by omega⟩
        · exact tail h
    · rw [loopEvents_succ_neg _ _ _ _ _ _ _ ha] at h
      rcases List.mem_cons.1 h with e | h
      · exact absurd e (callEvent_ne_progressbar v n g x y)
      · exact tail h

/-! ## Lemmas: timing lines come after the loops -/

theorem timedAfter_nil (M : Nat) (c : Variant → Nat) : TimedAfter M c [] := by
  intro pre post v t q h
  cases pre <;> cases h

theorem timedAfter_loop (M : Nat) (c : Variant → Nat) (argcv m : Nat) (v1 : Variant)
    (n : Nat) (g : List Nat) (k i : Nat) (rest : List Event)
    (H : TimedAfter M (fun v => c v + if v = v1 then k else 0) rest) :
    TimedAfter M c (loopEvents argcv m v1 n g k i ++ rest) := by
  intro pre post v t q h
  have hnot : Event.timing v t q ∉ loopEvents argcv m v1 n g k i := by
    intro hm
    have := loopEvents_isReport _ _ _ _ _ _ _ _ hm
    simp [Event.isReport] at this
  have key : ∃ a, pre = loopEvents argcv m v1 n g k i ++ a ∧
      rest = a ++ Event.timing v t q :: post := by
    rcases List.append_eq_append_iff.1 h with ⟨a, h1, h2⟩ | ⟨b, h1, h2⟩
    · exact ⟨a, h1, h2⟩
    · cases b with
      | nil =>
        refine ⟨[], ?_, ?_⟩
        · rw [h1, List.append_nil, List.append_nil]
        · rw [List.nil_append] at h2
          rw [List.nil_append, h2]
      | cons x b =>
        rw [List.cons_append] at h2
        injection h2 with hx _
        exact absurd (by rw [h1, hx]; simp) hnot
  obtain ⟨a, h1, h2⟩ := key
  have := H a post v t q h2
  simp only at this
  rw [h1, List.filter_append, List.length_append, loopEvents_isCallOf]
  omega

theorem timedAfter_timing (M : Nat) (c : Variant → Nat) (v1 : Variant) (t1 q1 : ℚ)
    (rest : List Event) (hc : c v1 = M) (H : TimedAfter M c rest) :
    TimedAfter M c (Event.timing v1 t1 q1 :: rest) := by
  intro pre post v t q h
  cases pre with
  | nil =>
    rw [List.nil_append] at h
    injection h with h1 _
    injection h1 with hv _ _
    rw [← hv]
    simpa using hc
  | cons x pre =>
    rw [List.cons_append] at h
    injection h with h1 h2
    rw [← h1, List.filter_cons_of_neg (by simp [Event.isCallOf])]
    exact H pre post v t q h2

theorem timedAfter_speedup (M : Nat) (c : Variant → Nat) (qs : List ℚ)
    (rest : List Event) (H : TimedAfter M c rest) :
    TimedAfter M c (Event.speedup qs :: rest) := by
  intro pre post v t q h
  cases pre with
  | nil =>
    rw [List.nil_append] at h
    injection h with h1 _
    cases h1
  | cons x pre =>
    rw [List.cons_append] at h
    injection h with h1 h2
    rw [← h1, List.filter_cons_of_neg (by simp [Event.isCallOf])]
    exact H pre post v t q h2

theorem timedAfter_preTrace (cuda : Bool) (argcv n : Nat) (g : List Nat) (t1 t2 : ℚ) :
    TimedAfter (paramM n).toNat (fun _ => 0) (preTrace cuda argcv n g t1 t2) := by
  unfold preTrace timingLine
  cases cuda
  · simp only [Bool.false_eq_true, if_false, List.append_assoc, List.singleton_append]
    apply timedAfter_loop
    apply timedAfter_timing _ _ _ _ _ _ (by simp)
    apply timedAfter_loop
    apply timedAfter_timing _ _ _ _ _ _ (by simp)
    exact timedAfter_nil _ _
  · simp only [if_true, List.nil_append]
    apply timedAfter_loop
    apply timedAfter_timing _ _ _ _ _ _ (by simp)
    exact timedAfter_nil _ _

theorem timedAfter_fullTrace (cuda : Bool) (argcv n : Nat) (g : List Nat) (t1 t2 t3 : ℚ)
    (qs : List ℚ) :
    TimedAfter (paramM n).toNat (fun _ => 0)
      (preTrace cuda argcv n g t1 t2 ++ postTrace argcv n g t3 qs) := by
  unfold preTrace postTrace timingLine
  cases cuda
  · simp only [Bool.false_eq_true, if_false, List.append_assoc, List.singleton_append,
      List.cons_append]
    apply timedAfter_loop
    apply timedAfter_timing _ _ _ _ _ _ (by simp)
    apply timedAfter_loop
    apply timedAfter_timing _ _ _ _ _ _ (by simp)
    apply timedAfter_loop
    apply timedAfter_timing _ _ _ _ _ _ (by simp)
    apply timedAfter_speedup
    exact timedAfter_nil _ _
  · simp only [if_true, List.nil_append, List.append_assoc, List.singleton_append,
      List.cons_append]
    apply timedAfter_loop
    apply timedAfter_timing _ _ _ _ _ _ (by simp)
    apply timedAfter_loop
    apply timedAfter_timing _ _ _ _ _ _ (by simp)
    apply timedAfter_speedup
    exact timedAfter_nil _ _

theorem loopEvents_filter_isReport (argcv m : Nat) (v : Variant) (n : Nat) (g : List Nat)
    (k i : Nat) : (loopEvents argcv m v n g k i).filter Event.isReport = [] := by
  rw [List.filter_eq_nil_iff]
  intro e he
  rw [loopEvents_isReport _ _ _ _ _ _ _ e he]
  decide

theorem preTrace_filter_isReport (cuda : Bool) (argcv n : Nat) (g : List Nat) (t1 t2 : ℚ) :
    (preTrace cuda argcv n g t1 t2).filter Event.isReport =
      (if cuda then [] else [timingLine n Variant.ispc t1]) ++
        [timingLine n Variant.tasks t2] := by
  unfold preTrace
  cases cuda
  · simp only [Bool.false_eq_true, if_false, List.filter_append, loopEvents_filter_isReport,
      List.nil_append]
    rfl
  · simp only [if_true, List.filter_append, loopEvents_filter_isReport, List.nil_append,
      List.filter_nil]
    rfl

/-! ## Parameters of a run -/

/-- C4: for every parsed workload size `N` the repetition count is 1 when `N < 100` and 50
otherwise, the value range ceiling is `N` when `N < 100` and `RAND_MAX` otherwise; without a
command-line argument `N` is 1,000,000, hence `M = 50` and `L = RAND_MAX`. -/
theorem params_of_workload_size (E : Libc) (args : List String) :
    (paramM (paramN E args) = if paramN E args < 100 then 1 else 50) ∧
    (paramL E (paramN E args) =
      if paramN E args < 100 then paramN E args else (E.RAND_MAX : Int)) ∧
    paramN E [] = 1000000 ∧ paramM (paramN E []) = 50 ∧
    paramL E (paramN E []) = (E.RAND_MAX : Int) := by
  refine ⟨rfl, rfl, rfl, rfl, rfl⟩

/-! ## Validation -/

/-- C2: the validator (copy the working buffer, sort the copy, assert elementwise equality)
decides how the run goes on; it aborts exactly when the working buffer left by the last
multi-worker pass is not non-decreasing, and the failing assertion is the one at the first
index where the sorted copy and the working buffer differ. -/
theorem validator_aborts_iff_unsorted {σ : Type} (E : Libc) (K : Kernels σ) (w0 : σ)
    (cuda : Bool) (args : List String) (c : List Nat)
    (hc : workingAfterTasks E K w0 cuda args = some c) :
    ((main E K w0 cuda args).exit =
      match validate (paramN E args).toNat (K.heapU (paramN E args).toNat).1 c with
      | some i => Exit.assertFail i
      | none => Exit.ok) ∧
    ((∃ i, (main E K w0 cuda args).exit = Exit.assertFail i) ↔ ¬ c.Sorted (· ≤ ·)) ∧
    ∀ i, (main E K w0 cuda args).exit = Exit.assertFail i →
      i < c.length ∧ (std_sort c).getD i 0 ≠ c.getD i 0 ∧
        ∀ j, j < i → (std_sort c).getD j 0 = c.getD j 0 := by
  obtain ⟨hl, he⟩ := main_exit E K w0 cuda args c hc
  have hn := validate_none_iff _ (K.heapU (paramN E args).toNat) ⟨c, hl⟩
  have hs := validate_some _ (K.heapU (paramN E args).toNat) ⟨c, hl⟩
  simp only at hn hs
  refine ⟨he, ?_, ?_⟩
  · rw [← hn, he]
    cases validate (paramN E args).toNat (K.heapU (paramN E args).toNat).1 c <;> simp
  · intro i hi
    rw [he] at hi
    cases hv : validate (paramN E args).toNat (K.heapU (paramN E args).toNat).1 c with
    | none =>
      rw [hv] at hi
      cases hi
    | some r =>
      rw [hv] at hi
      have hri : r = i := Exit.assertFail.inj hi
      subst hri
      obtain ⟨h1, h2, h3⟩ := hs r hv
      exact ⟨by omega, h2, h3⟩

/-- Witness of C2: mocked kernels that return their input unchanged, `N = 5`. -/
theorem validator_aborts_iff_unsorted_witness :
    workingAfterTasks isoC identityKernels () false ["5"] = some [3, 3, 3, 0, 1] ∧
    ((∃ i, (main isoC identityKernels () false ["5"]).exit = Exit.assertFail i) ↔
      ¬ [3, 3, 3, 0, 1].Sorted (· ≤ ·)) ∧
    (main isoC identityKernels () false ["5"]).exit = Exit.assertFail 0 ∧
    (std_sort [3, 3, 3, 0, 1]).getD 0 0 ≠ [3, 3, 3, 0, 1].getD 0 0 :=
  ⟨by decide,
   (validator_aborts_iff_unsorted isoC identityKernels () false ["5"] [3, 3, 3, 0, 1]
     (by decide)).2.1,
   by decide,
   ((validator_aborts_iff_unsorted isoC identityKernels () false ["5"] [3, 3, 3, 0, 1]
     (by decide)).2.2 0 (by decide)).2.1⟩

/-- C1, as amended: if the working buffer after the last multi-worker pass is not
non-decreasing, validation fails and the run aborts; a non-decreasing working buffer passes
validation, whether or not it is a permutation of the reference input. -/
theorem unsorted_output_aborts {σ : Type} (E : Libc) (K : Kernels σ) (w0 : σ)
    (cuda : Bool) (args : List String) (c : List Nat)
    (hc : workingAfterTasks E K w0 cuda args = some c) :
    (¬ c.Sorted (· ≤ ·) → ∃ i, (main E K w0 cuda args).exit = Exit.assertFail i) ∧
    (c.Sorted (· ≤ ·) → (main E K w0 cuda args).exit = Exit.ok) := by
  obtain ⟨hl, he⟩ := main_exit E K w0 cuda args c hc
  have hn := validate_none_iff _ (K.heapU (paramN E args).toNat) ⟨c, hl⟩
  simp only at hn
  constructor
  · intro h
    rw [← hn] at h
    cases hv : validate (paramN E args).toNat (K.heapU (paramN E args).toNat).1 c with
    | none => exact absurd hv h
    | some r => exact ⟨r, by rw [he, hv]⟩
  · intro h
    rw [he, hn.2 h]

/-- Witness of the amended C1: mocked kernels that return their input unchanged, `N = 5`. -/
theorem unsorted_output_aborts_witness :
    workingAfterTasks isoC identityKernels () false ["5"] = some [3, 3, 3, 0, 1] ∧
    ¬ [3, 3, 3, 0, 1].Sorted (· ≤ ·) ∧
    ∃ i, (main isoC identityKernels () false ["5"]).exit = Exit.assertFail i :=
  ⟨by decide, by decide,
   (unsorted_output_aborts isoC identityKernels () false ["5"] [3, 3, 3, 0, 1]
     (by decide)).1 (by decide)⟩

/-- Counterexample to C1 as stated: with `N = 5` the reference input is `[3, 3, 3, 0, 1]`;
a multi-worker kernel that returns `[1, 1, 3, 3, 3]` (the value 1 doubled, the value 0
omitted) leaves a working buffer that is not a permutation of the reference input, and the
run does not abort: validation passes and the process exits with 0. -/
theorem nonpermutation_passes_validation :
    (genInput isoC 5).1 = [3, 3, 3, 0, 1] ∧
    workingAfterTasks isoC doublingKernels () false ["5"] = some [1, 1, 3, 3, 3] ∧
    ¬ ([1, 1, 3, 3, 3].Sorted (· ≤ ·) ∧ [1, 1, 3, 3, 3].Perm [3, 3, 3, 0, 1]) ∧
    (main isoC doublingKernels () false ["5"]).exit = Exit.ok := by
  refine ⟨by decide, by decide, by decide, by decide⟩

/-! ## Reporting -/

/-- C9: on every timing line of a run, for a positive accumulated time `t` in milliseconds,
the throughput printed is `N * M` pairs divided by `t / 1000` seconds divided by `10 ^ 6`,
the product `N * M` being the exact integer product. -/
theorem throughput_reported {σ : Type} (E : Libc) (K : Kernels σ) (w0 : σ) (cuda : Bool)
    (args : List String) (v : Variant) (t q : ℚ)
    (hmem : Event.timing v t q ∈ (main E K w0 cuda args).trace) (ht : 0 < t) :
    q = ((paramN E args * paramM (paramN E args) : Int) : ℚ) / (t / 1000) / 10 ^ 6 := by
  obtain ⟨_, ⟨v1, h⟩ | ⟨v1, t1, h⟩ | ⟨qs, h⟩⟩ := mem_main_trace E K w0 cuda args _ hmem
  · have := loopEvents_isReport _ _ _ _ _ _ _ _ h
    simp [Event.isReport] at this
  · injection h with _ h2 h3
    subst h2
    rw [h3, throughput]
    have ht0 : t ≠ 0 := ne_of_gt ht
    push_cast
    field_simp
    ring
  · cases h

/-- Witness of C9: the run with `N = 5` on kernels that sort, the timer reading 2 ms after
the one pass of the first loop. -/
theorem throughput_reported_witness :
    Event.timing Variant.ispc 2 (1 / 400) ∈ (main isoC sortingKernels () false ["5"]).trace ∧
    (0 : ℚ) < 2 ∧
    (1 / 400 : ℚ) = ((paramN isoC ["5"] * paramM (paramN isoC ["5"]) : Int) : ℚ) /
      (2 / 1000) / 10 ^ 6 :=
  ⟨by with_unfolding_all decide, by norm_num,
   throughput_reported isoC sortingKernels () false ["5"] Variant.ispc 2 (1 / 400)
     (by with_unfolding_all decide) (by norm_num)⟩

/-! ## The progress indicator and the command line -/

/-- C8, as amended: when exactly two positional arguments are given (`argc == 3`), whatever
their values, `progressbar` is never called in any of the timing loops. -/
theorem progress_suppressed_two_args {σ : Type} (E : Libc) (K : Kernels σ) (w0 : σ)
    (cuda : Bool) (args : List String) (h2 : args.length = 2) :
    ∀ x y, Event.progressbar x y ∉ (main E K w0 cuda args).trace := by
  intro x y hmem
  obtain ⟨_, ⟨v1, h⟩ | ⟨v1, t1, h⟩ | ⟨qs, h⟩⟩ := mem_main_trace E K w0 cuda args _ hmem
  · have ha : argc args = 3 := by rw [argc, h2]
    rw [ha] at h
    exact loopEvents_progressbar _ _ _ _ _ _ x y h
  · cases h
  · cases h

/-- Witness of the amended C8: the command line `5 x`. -/
theorem progress_suppressed_two_args_witness :
    ["5", "x"].length = 2 ∧
    ∀ x y, Event.progressbar x y ∉ (main isoC sortingKernels () false ["5", "x"]).trace :=
  ⟨rfl, progress_suppressed_two_args isoC sortingKernels () false ["5", "x"] rfl⟩

/-- Counterexample to C8 as stated: on the command line `5 x y` a second positional
argument is present and `progressbar (0, 1)` is called all the same. -/
theorem progress_shown_three_args :
    Event.progressbar 0 1 ∈ (main isoC sortingKernels () false ["5", "x", "y"]).trace := by
  with_unfolding_all decide

/-! ## The reference input -/

/-- C3: whatever the kernels do to the working and order buffers, every kernel call of a
run is handed a working buffer equal to the generated reference input; at the top of every
pass `i` of the loop of every variant `v` the reference input still has its generated value
and the copy that opens the pass makes the working buffer equal to it; the pass leaves the
reference input unchanged, and so does the rest of the run. -/
theorem reference_input_invariant {σ : Type} (E : Libc) (K : Kernels σ) (w0 : σ)
    (cuda : Bool) (args : List String) :
    (∀ e ∈ (main E K w0 cuda args).trace, ∀ c, e.buffer = some c →
      c = (genInput E (paramN E args).toNat).1) ∧
    (∀ v i,
      (atTop E K w0 cuda (argc args) (paramN E args).toNat v i).code_orig =
        genInput E (paramN E args).toNat ∧
      (copyIn (atTop E K w0 cuda (argc args) (paramN E args).toNat v i)).code =
        genInput E (paramN E args).toNat ∧
      atTop E K w0 cuda (argc args) (paramN E args).toNat v (i + 1) =
        iteration K (argc args) (paramM (paramN E args).toNat).toNat v i
          (atTop E K w0 cuda (argc args) (paramN E args).toNat v i)) ∧
    (phaseSerial E K cuda (argc args)
      (afterTasks E K w0 cuda (argc args) (paramN E args).toNat)).code_orig =
        genInput E (paramN E args).toNat := by
  refine ⟨?_, ?_, ?_⟩
  · intro e hmem c hc
    obtain ⟨_, ⟨v1, h⟩ | ⟨v1, t1, h⟩ | ⟨qs, h⟩⟩ := mem_main_trace E K w0 cuda args _ hmem
    · exact loopEvents_buffer _ _ _ _ _ _ _ e h c hc
    · rw [h] at hc
      cases hc
    · rw [h] at hc
      cases hc
  · intro v i
    have hs : (loopStart E K w0 cuda (argc args) (paramN E args).toNat v).code_orig =
        genInput E (paramN E args).toNat := by
      cases v
      · rfl
      · exact (phaseISPC_code_orig K cuda (argc args) _).trans (initSt_code_orig E K w0 _)
      · exact afterTasks_code_orig E K w0 cuda (argc args) _
    have h1 : (atTop E K w0 cuda (argc args) (paramN E args).toNat v i).code_orig =
        genInput E (paramN E args).toNat := by
      rw [atTop, timingLoop_code_orig, hs]
    refine ⟨h1, ?_, ?_⟩
    · rw [copyIn_code, h1]
    · rw [atTop, timingLoop_succ, Nat.zero_add]
      rfl
  · rw [phaseSerial_code_orig, afterTasks_code_orig]

/-! ## The order of the kernel calls -/

/-- C5: in the three-variant build, a run whose validation passes calls the kernels in
exactly this order: `M` times the vectorised kernel with worker count 1, then `M` times the
vectorised kernel with worker count 104, then `M` times the scalar kernel. -/
theorem kernel_call_sequence {σ : Type} (E : Libc) (K : Kernels σ) (w0 : σ)
    (args : List String) (hok : (main E K w0 false args).exit = Exit.ok) :
    (main E K w0 false args).trace.filter Event.isCall =
      List.replicate (paramM (paramN E args)).toNat
        (Event.sort_ispc (paramN E args).toNat (genInput E (paramN E args).toNat).1 1) ++
      List.replicate (paramM (paramN E args)).toNat
        (Event.sort_ispc (paramN E args).toNat (genInput E (paramN E args).toNat).1 104) ++
      List.replicate (paramM (paramN E args)).toNat
        (Event.sort_serial (paramN E args).toNat (genInput E (paramN E args).toNat).1) := by
  rcases main_cases E K w0 false args with ⟨_, hm⟩ | ⟨hn, hm⟩
  · rw [hm] at hok
    cases hok
  · have hcast := toNat_cast_of_not_neg _ (not_lt.2 hn)
    obtain ⟨t1, t2, ⟨i, _, hN⟩ | ⟨t3, qs, _, hN⟩⟩ :=
      mainN_cases E K w0 false (argc args) (paramN E args).toNat
    · rw [hm, hN] at hok
      cases hok
    · rw [hm, hN]
      simp only [preTrace, postTrace, Bool.false_eq_true, if_false, List.filter_append,
        loopEvents_isCall, hcast, timingLine, List.filter_cons, List.filter_nil,
        Event.isCall, List.append_nil, List.append_assoc, callEvent, ntask]
      rfl

/-- Witness of C5: the run with `N = 5` on kernels that sort. -/
theorem kernel_call_sequence_witness :
    (main isoC sortingKernels () false ["5"]).exit = Exit.ok ∧
    (main isoC sortingKernels () false ["5"]).trace.filter Event.isCall =
      [Event.sort_ispc 5 [3, 3, 3, 0, 1] 1, Event.sort_ispc 5 [3, 3, 3, 0, 1] 104,
       Event.sort_serial 5 [3, 3, 3, 0, 1]] :=
  ⟨by decide, kernel_call_sequence isoC sortingKernels () ["5"] (by decide)⟩

/-! ## What is reported when validation fails -/

/-- C7: in a run whose validation fails, the report consists of the timing lines printed
before validation only (the single-worker line, absent from the `_CUDA_` build, and the
multi-worker line): no scalar timing line and no speedup line; and in every run the timing
line of a variant comes after exactly `M` calls of that variant's kernel. -/
theorem report_after_completion {σ : Type} (E : Libc) (K : Kernels σ) (w0 : σ)
    (cuda : Bool) (args : List String) :
    (∀ i, (main E K w0 cuda args).exit = Exit.assertFail i →
      (∃ t1 q1 t2 q2, (main E K w0 cuda args).trace.filter Event.isReport =
        (if cuda then [] else [Event.timing Variant.ispc t1 q1]) ++
          [Event.timing Variant.tasks t2 q2]) ∧
      (∀ t q, Event.timing Variant.serial t q ∉ (main E K w0 cuda args).trace) ∧
      (∀ qs, Event.speedup qs ∉ (main E K w0 cuda args).trace)) ∧
    (∀ pre post v t q, (main E K w0 cuda args).trace = pre ++ Event.timing v t q :: post →
      (pre.filter (Event.isCallOf v)).length = (paramM (paramN E args)).toNat) := by
  rcases main_cases E K w0 cuda args with ⟨_, hm⟩ | ⟨hn, hm⟩
  · rw [hm]
    constructor
    · intro i hi
      cases hi
    · intro pre post v t q h
      cases pre <;> cases h
  · have hcast := toNat_cast_of_not_neg _ (not_lt.2 hn)
    obtain ⟨t1, t2, ⟨i, _, hN⟩ | ⟨t3, qs, _, hN⟩⟩ :=
      mainN_cases E K w0 cuda (argc args) (paramN E args).toNat
    · rw [hm, hN]
      constructor
      · intro _ _
        have hf := preTrace_filter_isReport cuda (argc args) (paramN E args).toNat
          (genInput E (paramN E args).toNat).1 t1 t2
        have hmemf : ∀ e, e.isReport = true →
            e ∈ preTrace cuda (argc args) (paramN E args).toNat
              (genInput E (paramN E args).toNat).1 t1 t2 →
            e = timingLine (paramN E args).toNat Variant.ispc t1 ∨
              e = timingLine (paramN E args).toNat Variant.tasks t2 := by
          intro e hr he
          have : e ∈ (preTrace cuda (argc args) (paramN E args).toNat
              (genInput E (paramN E args).toNat).1 t1 t2).filter Event.isReport :=
            List.mem_filter.2 ⟨he, hr⟩
          rw [hf] at this
          rcases List.mem_append.1 this with h | h
          · cases cuda
            · rw [if_neg (by decide)] at h
              exact Or.inl (List.mem_singleton.1 h)
            · rw [if_pos rfl] at h
              cases h
          · exact Or.inr (List.mem_singleton.1 h)
        refine ⟨⟨t1, _, t2, _, hf⟩, ?_, ?_⟩
        · intro t q he
          rcases hmemf (Event.timing Variant.serial t q) rfl he with h | h <;> cases h
        · intro qs he
          rcases hmemf (Event.speedup qs) rfl he with h | h <;> cases h
      · intro pre post v t q h
        have := timedAfter_preTrace cuda (argc args) (paramN E args).toNat
          (genInput E (paramN E args).toNat).1 t1 t2 pre post v t q h
        rw [hcast] at this
        simpa using this
    · rw [hm, hN]
      constructor
      · intro i hi
        cases hi
      · intro pre post v t q h
        have := timedAfter_fullTrace cuda (argc args) (paramN E args).toNat
          (genInput E (paramN E args).toNat).1 t1 t2 t3 qs pre post v t q h
        rw [hcast] at this
        simpa using this

/-- Witness of C7: mocked kernels that return their input unchanged, `N = 5`; validation
fails at index 0, and the single-worker timing line follows the one single-worker call. -/
theorem report_after_completion_witness :
    (main isoC identityKernels () false ["5"]).exit = Exit.assertFail 0 ∧
    (∀ qs, Event.speedup qs ∉ (main isoC identityKernels () false ["5"]).trace) ∧
    (main isoC identityKernels () false ["5"]).trace =
      [Event.sort_ispc 5 [3, 3, 3, 0, 1] 1, Event.progressbar 0 1] ++
        Event.timing Variant.ispc 2 (1 / 400) ::
          [Event.sort_ispc 5 [3, 3, 3, 0, 1] 104, Event.progressbar 0 1,
           Event.timing Variant.tasks 2 (1 / 400)] ∧
    (([Event.sort_ispc 5 [3, 3, 3, 0, 1] 1, Event.progressbar 0 1]).filter
      (Event.isCallOf Variant.ispc)).length = (paramM (paramN isoC ["5"])).toNat :=
  ⟨by decide,
   ((report_after_completion isoC identityKernels () false ["5"]).1 0 (by decide)).2.2,
   by with_unfolding_all decide,
   (report_after_completion isoC identityKernels () false ["5"]).2
     [Event.sort_ispc 5 [3, 3, 3, 0, 1] 1, Event.progressbar 0 1]
     [Event.sort_ispc 5 [3, 3, 3, 0, 1] 104, Event.progressbar 0 1,
      Event.timing Variant.tasks 2 (1 / 400)] Variant.ispc 2 (1 / 400)
     (by with_unfolding_all decide)⟩

/-! ## Input generation -/

/-- Element `j` of the generated reference input is the `(j+1)`-th draw counted from the
generator state in which `main` starts, reduced modulo `l`. -/
theorem fill_getD (E : Libc) (l : Int) (k : Nat) (g : E.Rng) (j : Nat) (hj : j < k) :
    (fill E l k g).1.1.getD j 0 = (Int.tmod (nthDraw E j g : Int) l).toNat := by
  induction k generalizing g j with
  | zero => omega
  | succ k ih =>
    cases j with
    | zero => rfl
    | succ j =>
      have := ih (E.rand g).2 j (by omega)
      simpa [fill, nthDraw] using this

/-- C6, evaluated on the code: the reference input is drawn at line 80, before the first
`srand (0)` of line 84, so its elements are the draws of the unseeded generator. With the
sample generator of ISO C and `N = 100` (so `L = RAND_MAX = 32767`), element 0 of the
reference input is 16838, the first draw of the unseeded generator, whereas the first draw
after `srand (0)` reduced modulo `L` is 0. -/
theorem reference_input_drawn_before_seeding :
    (∀ (E : Libc) (n j : Nat), j < n → (genInput E n).1.getD j 0 =
      (Int.tmod (nthDraw E j (E.srand 1) : Int) (paramL E n)).toNat) ∧
    paramL isoC 100 = 32767 ∧
    (genInput isoC 100).1.getD 0 0 = 16838 ∧
    (Int.tmod (nthDraw isoC 0 (isoC.srand 0) : Int) (paramL isoC 100)).toNat = 0 := by
  refine ⟨?_, by decide, by decide, by decide⟩
  intro E n j hj
  exact fill_getD E (paramL E n) n E.initial j hj

/-- Witness of the evaluation of C6: element 0 of the reference input for `N = 100`. -/
theorem reference_input_drawn_before_seeding_witness :
    (0 < 100) ∧ (genInput isoC 100).1.getD 0 0 =
      (Int.tmod (nthDraw isoC 0 (isoC.srand 1) : Int) (paramL isoC 100)).toNat :=
  ⟨by decide, reference_input_drawn_before_seeding.1 isoC 100 0 (by decide)⟩

/-! ## The progress bar -/

/-- C10, evaluated on the code: for every repetition count `M` with `1 ≤ M < 100` and every
index `i` in `0..M-1`, `progressbar` scales the index to `i * (100 / M)` against the total
100, and the scaled index is below 100: the bar is never drawn at 100% and never with all
`w` cells filled. The calls of `progressbar` in a run are of this kind: the total is the
repetition count, which is below 100, and the index is below it. -/
theorem progressbar_below_total (m i w : Nat) (h1 : 1 ≤ m) (h2 : m < 100) (hi : i < m)
    (hw : 0 < w) :
    (∀ x n, progressbarScaled i m = some (x, n) → n = 100 ∧ x = i * (100 / m) ∧ x < 100) ∧
    (∀ p c, progressbar i m w = some (p, c) → p < 100 ∧ c < w) ∧
    (∀ (σ : Type) (E : Libc) (K : Kernels σ) (w0 : σ) (cuda : Bool) (args : List String)
        (x y : Nat), Event.progressbar x y ∈ (main E K w0 cuda args).trace →
        y = (paramM (paramN E args)).toNat ∧ 1 ≤ y ∧ y < 100 ∧ x < y) := by
  have hd : 1 ≤ 100 / m := (Nat.le_div_iff_mul_le (by omega)).2 (by omega)
  have hle : m * (100 / m) ≤ 100 := Nat.mul_div_le 100 m
  have hlt : i * (100 / m) < 100 := by
    have h3 : (i + 1) * (100 / m) ≤ m * (100 / m) := Nat.mul_le_mul_right _ hi
    rw [Nat.add_mul, Nat.one_mul] at h3
    omega
  have hmod : i * (100 / m) % 2 ^ 32 = i * (100 / m) := Nat.mod_eq_of_lt (by omega)
  have hs : progressbarScaled i m = some (i * (100 / m), 100) := by
    unfold progressbarScaled
    simp only [if_pos h2, hmod]
    rw [if_neg]
    intro h
    exact h.2 (Nat.mod_one _)
  refine ⟨?_, ?_, ?_⟩
  · intro x n h
    rw [hs] at h
    injection h with h
    injection h with hx hn
    subst hx
    subst hn
    exact ⟨rfl, rfl, hlt⟩
  · intro p c h
    unfold progressbar at h
    rw [hs] at h
    injection h with h
    injection h with hp hc
    subst hp
    subst hc
    constructor
    · rw [Nat.mul_div_cancel _ (by decide)]
      exact hlt
    · apply (Nat.div_lt_iff_lt_mul (by decide)).2
      calc i * (100 / m) * w < 100 * w := Nat.mul_lt_mul_of_pos_right hlt hw
        _ = w * 100 := Nat.mul_comm _ _
  · intro σ E K w0 cuda args x y hmem
    obtain ⟨_, ⟨v1, h⟩ | ⟨v1, t1, h⟩ | ⟨qs, h⟩⟩ := mem_main_trace E K w0 cuda args _ hmem
    · obtain ⟨e1, _, e3⟩ := loopEvents_progressbar_index _ _ _ _ _ _ _ _ _ h
      have hM : (paramM (paramN E args)).toNat = 1 ∨ (paramM (paramN E args)).toNat = 50 := by
        unfold paramM
        by_cases hn : paramN E args < 100
        · rw [if_pos hn]
          exact Or.inl rfl
        · rw [if_neg hn]
          exact Or.inr rfl
      refine ⟨e1, ?_, ?_, ?_⟩ <;> omega
    · cases h
    · cases h

/-- Witness of the evaluation of C10: `M = 50` (the repetition count of every run with
`N ≥ 100`), last index 49, bar width 50: the bar is drawn at 98% with 49 cells. -/
theorem progressbar_below_total_witness :
    (1 ≤ 50 ∧ 50 < 100 ∧ 49 < 50 ∧ 0 < 50) ∧ progressbar 49 50 50 = some (98, 49) ∧
    (∀ p c, progressbar 49 50 50 = some (p, c) → p < 100 ∧ c < 50) :=
  ⟨by decide, by decide,
   (progressbar_below_total 50 49 50 (by decide) (by decide) (by decide) (by decide)).2.1⟩

end SortBench
